import Mathlib

/-!
Shallow embedding of the `report_*` core of the `nonki` repository
(price-statistics aggregation and HTML/SVG report rendering), together
with theorems settling the frozen claims about its specification.

Conventions of the embedding:
* Python `float` arithmetic on the small decimal constants used by the
  program (`0.25`, `0.5`, `0.75`, and the values interpolated from
  integer prices) is exact, so it is modelled by exact rational
  arithmetic over `ℚ`.
* Python `round` rounds half to even (the bankers convention); it is modelled
  by `pyRound` below.
* Calendar dates are modelled by their proleptic-Gregorian ordinal
  (Python `date.toordinal`), a natural number; `0001-01-01` has
  ordinal `1` and is a Monday.
* Python `set` values are modelled by lists, with `in` as list
  membership; `sorted(s)` for a set `s` is modelled by sorting the
  deduplicated list.
* Strings processed character by character are modelled as `List Char`;
  a CSV row (the `dict` produced by `csv.DictReader`) is modelled as an
  association list whose values are `Option String` (`none` is Python
  `None`, produced for columns missing from a short physical row).

The file is organised as definitions first, then the theorems.
-/

namespace Nonki

set_option maxRecDepth 2000

/-! ## Definitions -/

/-! ### Python rounding

Python 3 `round` maps to the nearest integer, resolving exact-half ties
to the even integer. -/

/-- Model of Python 3 `round` on an exact rational value: nearest
integer, half-to-even. -/
def pyRound (q : ℚ) : ℤ :=
  let f := ⌊q⌋
  let r := q - f
  if r < 1 / 2 then f
  else if 1 / 2 < r then f + 1
  else if f % 2 = 0 then f else f + 1

/-! ### Statistics engine (`report_data.py` lines 91-136, duplicated in
`report.py` lines 334-360)

`statistics.mean` and `statistics.median` compute the exact value for
integer data; both are modelled over `ℚ`.  Python list indexing `xs[lo]`
is modelled by `List.getD`; for the nonnegative fractional ranks
produced by `p ≥ 0`, Python `int(i)` truncation coincides with the
floor. -/

/-- Ascending Python `sorted` on integers (a stable ascending sort). -/
def pySorted (values : List ℤ) : List ℤ :=
  List.insertionSort (· ≤ ·) values

/-- Model of `mean_int`: the arithmetic mean of the list, rounded by
Python `round`; `None` for empty input. -/
def mean_int (values : List ℤ) : Option ℤ :=
  if values = [] then none
  else some (pyRound ((values.sum : ℚ) / values.length))

/-- Model of `median_int`: `round(statistics.median(values))`; `None`
for empty input.  `statistics.median` sorts and takes the middle
element (odd length) or the average of the two middle elements (even
length). -/
def median_int (values : List ℤ) : Option ℤ :=
  if values = [] then none
  else
    let xs := pySorted values
    let n := xs.length
    if n % 2 = 1 then some (pyRound ((xs.getD (n / 2) 0 : ℚ)))
    else some (pyRound (((xs.getD (n / 2 - 1) 0 : ℚ) + (xs.getD (n / 2) 0 : ℚ)) / 2))

/-- Model of `quantile`: sort ascending, return the sole element of a
singleton, otherwise linearly interpolate between the two order
statistics bracketing the fractional rank `(n-1)*p` and round with
Python `round`. -/
def quantile (values : List ℤ) (p : ℚ) : Option ℤ :=
  if values = [] then none
  else
    let xs := pySorted values
    if xs.length = 1 then some (xs.getD 0 0)
    else
      let i : ℚ := ((xs.length : ℤ) - 1 : ℤ) * p
      let lo : ℕ := ⌊i⌋.toNat
      let hi : ℕ := min (lo + 1) (xs.length - 1)
      let w : ℚ := i - (lo : ℚ)
      some (pyRound ((xs.getD lo 0 : ℚ) * (1 - w) + (xs.getD hi 0 : ℚ) * w))

/-! ### Tolerant field parsers (`report_data.py` lines 37-88)

`_parse_int`, `_parse_float` and `_parse_date` operate on the cell
value handed back by `csv.DictReader`, which is `None` for a column
missing from a short physical row, hence the `Option String` argument
(`value or ""` in the source).  Python `int(...)` underscore digit
separators and `float(...)` special values `inf`/`nan` are not
modelled; `datetime.fromisoformat` is modelled as the strict
`YYYY-MM-DD` calendar-date grammar (the format fixed by the data
contract). -/

/-- Characters stripped by Python `str.strip()` (the ASCII whitespace
subset). -/
def isPyWhitespace (c : Char) : Bool :=
  c = ' ' || c = '\t' || c = '\n' || c = '\r' || c = Char.ofNat 11 || c = Char.ofNat 12

/-- Model of Python `str.strip()`. -/
def pyStrip (s : String) : String :=
  ⟨((s.data.dropWhile isPyWhitespace).reverse.dropWhile isPyWhitespace).reverse⟩

/-- Model of Python `str.lower()` on the ASCII range. -/
def pyLower (s : String) : String :=
  ⟨s.data.map Char.toLower⟩

/-- Numeric value of a nonempty all-digit character list, `none`
otherwise. -/
def digitsToNat? (ds : List Char) : Option ℕ :=
  if ds ≠ [] ∧ ds.all (·.isDigit) then
    some (ds.foldl (fun acc c => acc * 10 + (c.toNat - '0'.toNat)) 0)
  else none

/-- Model of Python `int(s)` for a string argument: optional
whitespace, an optional sign, then decimal digits; `none` models
`ValueError`. -/
def pyIntParse? (s : String) : Option ℤ :=
  match (pyStrip s).data with
  | '+' :: ds => (digitsToNat? ds).map (fun n => (n : ℤ))
  | '-' :: ds => (digitsToNat? ds).map (fun n => -(n : ℤ))
  | ds => (digitsToNat? ds).map (fun n => (n : ℤ))

/-- Value of a digit list read as the fractional part after a decimal
point. -/
def fracVal (ds : List Char) : ℚ :=
  (((digitsToNat? ds).getD 0 : ℚ)) / (10 : ℚ) ^ ds.length

/-- Mantissa of a Python float literal: `digits`, `digits.digits`,
`digits.` or `.digits`. -/
def parseFloatMantissa? (cs : List Char) : Option ℚ :=
  let ip := cs.takeWhile (·.isDigit)
  let rest := cs.dropWhile (·.isDigit)
  match rest with
  | [] => (digitsToNat? ip).map (fun n => (n : ℚ))
  | '.' :: fp =>
    if fp.all (·.isDigit) ∧ (ip ≠ [] ∨ fp ≠ []) then
      some (((digitsToNat? ip).getD 0 : ℚ) + fracVal fp)
    else none
  | _ => none

/-- Exponent of a Python float literal: optional sign then digits. -/
def parseExp? (cs : List Char) : Option ℤ :=
  match cs with
  | '+' :: ds => (digitsToNat? ds).map (fun n => (n : ℤ))
  | '-' :: ds => (digitsToNat? ds).map (fun n => -(n : ℤ))
  | ds => (digitsToNat? ds).map (fun n => (n : ℤ))

/-- Unsigned part of a Python float literal, with optional exponent. -/
def parseUnsignedFloat? (cs : List Char) : Option ℚ :=
  let mant := cs.takeWhile (fun c => c ≠ 'e' ∧ c ≠ 'E')
  let rest := cs.dropWhile (fun c => c ≠ 'e' ∧ c ≠ 'E')
  match rest with
  | [] => parseFloatMantissa? mant
  | _ :: ex =>
    match parseFloatMantissa? mant, parseExp? ex with
    | some m, some e => some (m * (10 : ℚ) ^ e)
    | _, _ => none

/-- Model of Python `float(s)` for a string argument (finite decimal
literals; the exact rational value stands in for the nearest double).
`none` models `ValueError`. -/
def pyFloatParse? (s : String) : Option ℚ :=
  match (pyStrip s).data with
  | '+' :: rest => parseUnsignedFloat? rest
  | '-' :: rest => (parseUnsignedFloat? rest).map Neg.neg
  | rest => parseUnsignedFloat? rest

/-- Model of `_parse_int`: strip; empty or case-insensitive `none`
parse to `None`; otherwise `int(v)` with `ValueError` mapped to
`None`. -/
def parse_int (value : Option String) : Option ℤ :=
  let v := pyStrip (value.getD "")
  if v = "" then none
  else if pyLower v = "none" then none
  else pyIntParse? v

/-- Model of `_parse_float`: strip; empty or case-insensitive `none`
parse to `None`; otherwise `float(v)` with `ValueError` mapped to
`None`. -/
def parse_float (value : Option String) : Option ℚ :=
  let v := pyStrip (value.getD "")
  if v = "" then none
  else if pyLower v = "none" then none
  else pyFloatParse? v

/-! ### Calendar arithmetic

The proleptic-Gregorian ordinal of Python `datetime.date`. -/

/-- Gregorian leap-year test. -/
def isLeapYear (y : ℕ) : Bool :=
  y % 4 = 0 && (y % 100 ≠ 0 || y % 400 = 0)

/-- Number of days of month `m` of year `y`. -/
def daysInMonth (y m : ℕ) : ℕ :=
  if m = 2 then (if isLeapYear y then 29 else 28)
  else if m = 4 ∨ m = 6 ∨ m = 9 ∨ m = 11 then 30
  else 31

/-- Number of days in the months of year `y` strictly before month
`m`. -/
def daysBeforeMonth (y m : ℕ) : ℕ :=
  (((List.range (m - 1)).map (fun k => daysInMonth y (k + 1))).sum)

/-- Number of days strictly before January 1 of year `y` (year 1 is
the first year). -/
def daysBeforeYear (y : ℕ) : ℕ :=
  let n := y - 1
  365 * n + n / 4 + n / 400 - n / 100

/-- Model of Python `date(y, m, d).toordinal()`. -/
def toOrdinal (y m d : ℕ) : ℕ :=
  daysBeforeYear y + daysBeforeMonth y m + d

/-- Model of Python `date.weekday()` on an ordinal: Monday is `0`,
Sunday is `6`. -/
def weekday (o : ℕ) : ℕ :=
  (o + 6) % 7

/-- Model of `_parse_date`: strip; empty parses to `None`; otherwise a
strict `YYYY-MM-DD` calendar date, returned as its ordinal; anything
else is `None`. -/
def parse_date (value : Option String) : Option ℕ :=
  let v := pyStrip (value.getD "")
  match v.data with
  | [y1, y2, y3, y4, s1, m1, m2, s2, d1, d2] =>
    if y1.isDigit ∧ y2.isDigit ∧ y3.isDigit ∧ y4.isDigit ∧ s1 = '-' ∧
        m1.isDigit ∧ m2.isDigit ∧ s2 = '-' ∧ d1.isDigit ∧ d2.isDigit then
      let y := ((digitsToNat? [y1, y2, y3, y4]).getD 0)
      let m := ((digitsToNat? [m1, m2]).getD 0)
      let d := ((digitsToNat? [d1, d2]).getD 0)
      if 1 ≤ y ∧ 1 ≤ m ∧ m ≤ 12 ∧ 1 ≤ d ∧ d ≤ daysInMonth y m then
        some (toOrdinal y m d)
      else none
    else none
  | _ => none

/-! ### Row records and CSV parsing (`report_data.py` lines 12-202) -/

/-- A parsed CSV row as handed out by `csv.DictReader`: column name to
cell value, `none` standing for Python `None`. -/
abbrev Row := List (String × Option String)

/-- Model of `r.get(k, dflt)` on a `DictReader` row. -/
def rowGet (r : Row) (k : String) (dflt : Option String) : Option String :=
  (r.lookup k).getD dflt

/-- Model of `value or ""` applied to a cell. -/
def cellOrEmpty (v : Option String) : String :=
  v.getD ""

/-- Model of `value or None` applied to a cell (used for
`subtitle`). -/
def cellOrNone (v : Option String) : Option String :=
  match v with
  | none => none
  | some s => if s = "" then none else some s

/-- The `AvgRow` dataclass (a daily summary row). -/
structure AvgRow where
  checkin : ℕ
  avg_price_yen : Option ℤ
  count : ℤ
  min_price_yen : Option ℤ
  max_price_yen : Option ℤ
  url : String
  deriving DecidableEq, Repr

/-- The `DetailRow` dataclass (one listing observation). -/
structure DetailRow where
  checkin : ℕ
  price_yen : ℤ
  listing_url : String := ""
  raw_label : String := ""
  title : String := ""
  guests : Option ℤ := none
  bedrooms : Option ℤ := none
  beds : Option ℤ := none
  reviews_count : Option ℤ := none
  rating : Option ℚ := none
  subtitle : Option String := none
  deriving DecidableEq, Repr

/-- Model of `int(r.get("count", "0") or 0)` in `read_avg_csv`: a
missing column or a `None`/empty cell gives `0`; any other text goes
through bare `int(...)`, whose `ValueError` is modelled by
`Except.error`. -/
def parseCount (r : Row) : Except Unit ℤ :=
  match rowGet r "count" (some "0") with
  | none => Except.ok 0
  | some s =>
    if s = "" then Except.ok 0
    else
      match pyIntParse? s with
      | some n => Except.ok n
      | none => Except.error ()

/-- Model of one iteration of the `read_avg_csv` row loop: `ok none`
when the row is skipped for an unparseable `checkin`, `error` when the
bare `int` on `count` raises. -/
def parse_avg_row (r : Row) : Except Unit (Option AvgRow) :=
  match parse_date (rowGet r "checkin" (some "")) with
  | none => Except.ok none
  | some d =>
    match parseCount r with
    | Except.error e => Except.error e
    | Except.ok c =>
      Except.ok (some
        { checkin := d
          avg_price_yen := parse_int (rowGet r "avg_price_yen" (some ""))
          count := c
          min_price_yen := parse_int (rowGet r "min_price_yen" (some ""))
          max_price_yen := parse_int (rowGet r "max_price_yen" (some ""))
          url := cellOrEmpty (rowGet r "url" (some "")) })

/-- Sequential processing of the `read_avg_csv` row loop. -/
def processAvg : List Row → Except Unit (List AvgRow)
  | [] => Except.ok []
  | r :: rest =>
    match parse_avg_row r with
    | Except.error e => Except.error e
    | Except.ok none => processAvg rest
    | Except.ok (some a) => (processAvg rest).map (a :: ·)

/-- Model of `read_avg_csv` applied to the parsed rows of the file:
process every row, then sort ascending by `checkin`. -/
def read_avg_csv (rows : List Row) : Except Unit (List AvgRow) :=
  (processAvg rows).map (List.insertionSort (fun a b => a.checkin ≤ b.checkin))

/-- Model of one iteration of the `read_details_csv` row loop: `none`
when the row is skipped because `checkin` or `price_yen` does not
parse. -/
def rowToDetail? (r : Row) : Option DetailRow :=
  match parse_date (rowGet r "checkin" (some "")), parse_int (rowGet r "price_yen" (some "")) with
  | some d, some p =>
    some
      { checkin := d
        price_yen := p
        listing_url := cellOrEmpty (rowGet r "listing_url" (some ""))
        raw_label := cellOrEmpty (rowGet r "raw_label" (some ""))
        title := cellOrEmpty (rowGet r "title" (some ""))
        guests := parse_int (rowGet r "guests" (some ""))
        bedrooms := parse_int (rowGet r "bedrooms" (some ""))
        beds := parse_int (rowGet r "beds" (some ""))
        reviews_count := parse_int (rowGet r "reviews_count" (some ""))
        rating := parse_float (rowGet r "rating" (some ""))
        subtitle := cellOrNone (rowGet r "subtitle" (some "")) }
  | _, _ => none

/-- Lexicographic sort key `(checkin, price_yen, listing_url)` of
`read_details_csv`. -/
def detailKeyLe (a b : DetailRow) : Prop :=
  a.checkin < b.checkin ∨
    (a.checkin = b.checkin ∧
      (a.price_yen < b.price_yen ∨ (a.price_yen = b.price_yen ∧ a.listing_url ≤ b.listing_url)))

instance : DecidableRel detailKeyLe := fun a b => by
  unfold detailKeyLe
  infer_instance

/-- Model of `read_details_csv` applied to the parsed rows of the
file: keep the rows whose `checkin` and `price_yen` both parse, then
sort by `(checkin, price_yen, listing_url)`. -/
def read_details_csv (rows : List Row) : List DetailRow :=
  List.insertionSort detailKeyLe (rows.filterMap rowToDetail?)

/-! ### Per-day statistics (`report_data.py` lines 221-244)

The Python result is a `dict` keyed by the dates that own at least one
detail row; it is modelled as a function from date ordinal to
`Option DayStats`. -/

/-- One entry of the per-day statistics map. -/
structure DayStats where
  median : Option ℤ
  p25 : Option ℤ
  p75 : Option ℤ
  min : Option ℤ
  max : Option ℤ
  deriving DecidableEq, Repr

/-- The `price_yen` values of the detail rows of date `d`, in row
order (the grouping step of `build_detail_stats_by_day`). -/
def pricesOn (details_rows : List DetailRow) (d : ℕ) : List ℤ :=
  (details_rows.filter (fun r => decide (r.checkin = d))).map DetailRow.price_yen

/-- Model of `build_detail_stats_by_day`: the entry of date `d`, or
`none` when `d` owns no detail row. -/
def build_detail_stats_by_day (details_rows : List DetailRow) (d : ℕ) : Option DayStats :=
  let prices := pricesOn details_rows d
  if prices.isEmpty then none
  else
    some
      { median := median_int prices
        p25 := quantile prices (1 / 4)
        p75 := quantile prices (3 / 4)
        min := prices.min?
        max := prices.max? }

/-! ### Japanese holiday calculator (`report_html.py` lines 146-228,
duplicated in `report.py`)

Holiday sets are modelled as lists of ordinals with list membership as
the set membership.  The equinox formulas are the linear
approximations, exact over `ℚ`; as in the source they are meaningful
for years of the 1980-2099 window. -/

/-- Model of `_nth_weekday_of_month`: the `n`-th weekday `wd`
(Monday = 0) of the month. -/
def nth_weekday_of_month (year month wd n : ℕ) : ℕ :=
  let first := toOrdinal year month 1
  let offset := (wd + 7 - weekday first) % 7
  first + offset + 7 * (n - 1)

/-- Model of `_vernal_equinox_day`. -/
def vernal_equinox_day (year : ℕ) : ℕ :=
  let t : ℚ := 208431 / 10000 + (242194 / 1000000) * ((year : ℚ) - 1980) - (((year - 1980) / 4 : ℕ) : ℚ)
  toOrdinal year 3 (⌊t⌋.toNat)

/-- Model of `_autumn_equinox_day`. -/
def autumn_equinox_day (year : ℕ) : ℕ :=
  let t : ℚ := 232488 / 10000 + (242194 / 1000000) * ((year : ℚ) - 1980) - (((year - 1980) / 4 : ℕ) : ℚ)
  toOrdinal year 9 (⌊t⌋.toNat)

/-- The seeded holidays of a year: ten fixed dates, four nth-Monday
holidays, the two equinoxes. -/
def seedList (year : ℕ) : List ℕ :=
  [toOrdinal year 1 1, toOrdinal year 2 11, toOrdinal year 2 23,
    toOrdinal year 4 29, toOrdinal year 5 3, toOrdinal year 5 4, toOrdinal year 5 5,
    toOrdinal year 8 11, toOrdinal year 11 3, toOrdinal year 11 23,
    nth_weekday_of_month year 1 0 2, nth_weekday_of_month year 7 0 3,
    nth_weekday_of_month year 9 0 3, nth_weekday_of_month year 10 0 2,
    vernal_equinox_day year, autumn_equinox_day year]

/-- Model of `sorted(hols)` on the seed set: ascending distinct
ordinals. -/
def sortedSeeds (year : ℕ) : List ℕ :=
  List.insertionSort (· ≤ ·) (seedList year).dedup

/-- Bounded walk of the substitution-holiday `while` loop: first
candidate not in `bad`, with enough fuel to always find one. -/
def findNextFreeAux (bad : List ℕ) : ℕ → ℕ → ℕ
  | 0, d => d
  | fuel + 1, d => if d ∈ bad then findNextFreeAux bad fuel (d + 1) else d

/-- First date strictly after `h` that is not in `bad` (the body of
the substitution `while True` loop). -/
def findNextFree (bad : List ℕ) (h : ℕ) : ℕ :=
  findNextFreeAux bad (bad.length + 1) (h + 1)

/-- The substitution-holiday loop over the sorted seed list: for each
Sunday seed, add the first subsequent date that is neither a seed nor
an already-added substitute.  `added` is the accumulated
`added_substitute` set. -/
def subsFrom (seeds : List ℕ) : List ℕ → List ℕ → List ℕ
  | [], _ => []
  | h :: rest, added =>
    if weekday h = 6 then
      let s := findNextFree (seeds ++ added) h
      s :: subsFrom seeds rest (added ++ [s])
    else subsFrom seeds rest added

/-- The substitution holidays added for a year, in insertion order. -/
def substitutesOfYear (year : ℕ) : List ℕ :=
  subsFrom (sortedSeeds year) (sortedSeeds year) []

/-- The seeded holidays that fall on a Sunday, ascending. -/
def sundaySeeds (year : ℕ) : List ℕ :=
  (sortedSeeds year).filter (fun h => decide (weekday h = 6))

/-- The holiday set after the substitution step (`hols |=
added_substitute`). -/
def holsAfterSub (year : ℕ) : List ℕ :=
  sortedSeeds year ++ substitutesOfYear year

/-- The dates of the year walked by the citizens-holiday loop
(`year_start` through `year_end`). -/
def yearDates (year : ℕ) : List ℕ :=
  (List.range (toOrdinal year 12 31 + 1 - toOrdinal year 1 1)).map (· + toOrdinal year 1 1)

/-- The citizens-holiday loop: a date of the year that is not a
holiday, not a Sunday, and whose two neighbours are both holidays.
The loop reads `hols` but only mutates `added_citizen`, so it is a
filter of the iterated dates. -/
def citizenHolidays (year : ℕ) : List ℕ :=
  (yearDates year).filter
    (fun d =>
      decide (d ∉ holsAfterSub year ∧ weekday d ≠ 6 ∧
        (d - 1) ∈ holsAfterSub year ∧ (d + 1) ∈ holsAfterSub year))

/-- Model of `_japan_holidays_for_year`: seeds, substitution holidays
and citizens holidays (membership is the set membership). -/
def japan_holidays_for_year (year : ℕ) : List ℕ :=
  holsAfterSub year ++ citizenHolidays year

/-! ### HTML escaping and the JSON payload embedding
(`report_html.py` lines 25-33, `report_main.py` lines 87-89)

`escape` is `xml.sax.saxutils.escape` with the two extra quote
entities: five sequential single-character `str.replace` passes.  The
detail payload is embedded as `json.dumps(payload,
ensure_ascii=False).replace("</", "<\\/")` inside a
`<script type="application/json">` element; the contribution of one
title string to that artifact text is its JSON string encoding with
the `</` rewriting (the surrounding JSON punctuation cannot form `</`
across the value boundary). -/

/-- Model of `str.replace` with a single-character pattern. -/
def replace1 (c : Char) (rep : List Char) (s : List Char) : List Char :=
  s.flatMap (fun x => if x = c then rep else [x])

/-- Model of `escape` from `report_html.py`: `&`, `<`, `>` then the
two quote entities. -/
def escape (s : List Char) : List Char :=
  replace1 (Char.ofNat 39) "&#x27;".data
    (replace1 '"' "&quot;".data
      (replace1 '>' "&gt;".data
        (replace1 '<' "&lt;".data
          (replace1 '&' "&amp;".data s))))

/-- Lower-case hexadecimal digit. -/
def hexDigit (n : ℕ) : Char :=
  if n < 10 then Char.ofNat ('0'.toNat + n) else Char.ofNat ('a'.toNat + n - 10)

/-- Model of the `json.dumps` escaping of one character of a string
value (`ensure_ascii=False`). -/
def jsonEscChar (c : Char) : List Char :=
  if c = '\\' then ['\\', '\\']
  else if c = '"' then ['\\', '"']
  else if c = '\n' then ['\\', 'n']
  else if c = '\t' then ['\\', 't']
  else if c = '\r' then ['\\', 'r']
  else if c.toNat = 8 then ['\\', 'b']
  else if c.toNat = 12 then ['\\', 'f']
  else if c.toNat < 32 then ['\\', 'u', '0', '0', hexDigit (c.toNat / 16), hexDigit (c.toNat % 16)]
  else [c]

/-- Model of the `json.dumps` encoding of a string value. -/
def jsonEncodeString (s : List Char) : List Char :=
  '"' :: (s.flatMap jsonEscChar ++ ['"'])

/-- Model of `str.replace("</", "<\\/")`: left-to-right rewriting of
every `</` occurrence (a match consumes both characters, a miss moves
one character forward). -/
def replaceLtSlash : List Char → List Char
  | [] => []
  | [a] => [a]
  | a :: b :: rest =>
    if a = '<' ∧ b = '/' then '<' :: '\\' :: '/' :: replaceLtSlash rest
    else a :: replaceLtSlash (b :: rest)

/-- The text a detail-row title contributes to the emitted document:
its JSON string encoding inside the payload `<script>` element, after
the global `</` rewriting of `report_main.py` line 88. -/
def embeddedPayloadTitle (title : List Char) : List Char :=
  replaceLtSlash (jsonEncodeString title)

/-- Whether the character list contains the script-closing sequence
`</` at adjacent positions. -/
def hasLtSlash : List Char → Bool
  | [] => false
  | [_] => false
  | a :: b :: rest => (a = '<' && b = '/') || hasLtSlash (b :: rest)

/-! ### Chart polyline segments (`report_html.py` lines 472-484,
duplicated in `report.py` lines 609-622)

An aligned series over the ordered summary rows is a list of optional
values, one per date; the emitted point string
`f"{x_at(i):.2f},{y_at(v):.2f}"` is abstracted to the pair
`(i, v)` of the date index and the series value (the coordinate maps
are fixed injective functions of these). -/

/-- The `polyline_segments` loop: `cur` is the growing run of points,
flushed when it holds at least two points. -/
def polySegsAux : List (Option ℤ) → ℕ → List (ℕ × ℤ) → List (List (ℕ × ℤ))
  | [], _, cur => if 2 ≤ cur.length then [cur] else []
  | none :: rest, i, cur =>
    (if 2 ≤ cur.length then [cur] else []) ++ polySegsAux rest (i + 1) []
  | some v :: rest, i, cur => polySegsAux rest (i + 1) (cur ++ [(i, v)])

/-- Model of `polyline_segments` over an aligned series. -/
def polyline_segments (series : List (Option ℤ)) : List (List (ℕ × ℤ)) :=
  polySegsAux series 0 []

/-- Strip the enumeration wrappers of one run of present values. -/
def cleanRun (run : List (ℕ × Option ℤ)) : List (ℕ × ℤ) :=
  run.filterMap (fun p => p.2.map (fun v => (p.1, v)))

/-- The spec-side reading of `polyline_segments`: enumerate the
series, split it at the missing values into the maximal runs of
consecutive present values, and keep the runs of length at least
two. -/
def spec_segments (series : List (Option ℤ)) : List (List (ℕ × ℤ)) :=
  ((series.enum.splitOnP (fun p => p.2.isNone)).map cleanRun).filter
    (fun run => decide (2 ≤ run.length))

/-- The two detail rows of the per-day statistics worked example: one
date with exactly the prices 9000 and 11000. -/
def c8ExampleRows : List DetailRow :=
  [{ checkin := toOrdinal 2026 1 23, price_yen := 9000 },
    { checkin := toOrdinal 2026 1 23, price_yen := 11000 }]

instance {ε α : Type} [DecidableEq ε] [DecidableEq α] : DecidableEq (Except ε α) :=
  fun a b =>
    match a, b with
    | Except.error e1, Except.error e2 =>
      if h : e1 = e2 then Decidable.isTrue (by rw [h])
      else Decidable.isFalse (fun hh => h (Except.error.inj hh))
    | Except.error _, Except.ok _ => Decidable.isFalse (fun hh => Except.noConfusion hh)
    | Except.ok _, Except.error _ => Decidable.isFalse (fun hh => Except.noConfusion hh)
    | Except.ok a1, Except.ok a2 =>
      if h : a1 = a2 then Decidable.isTrue (by rw [h])
      else Decidable.isFalse (fun hh => h (Except.ok.inj hh))

/-! ## Theorems

The arithmetic of `Rat` is implemented by definitions marked
irreducible; restoring the default transparency lets concrete values
of the embedded functions be evaluated by `decide`. -/

set_option allowUnsafeReducibility true

attribute [semireducible] Rat.mul Rat.add Rat.sub Rat.inv Rat.ofScientific


theorem pyRound_cases (q : ℚ) : pyRound q = ⌊q⌋ ∨ pyRound q = ⌊q⌋ + 1 := by
  unfold pyRound
  dsimp only
  split
  · exact Or.inl rfl
  split
  · exact Or.inr rfl
  split
  · exact Or.inl rfl
  · exact Or.inr rfl

theorem le_pyRound_of_le (mn : ℤ) (q : ℚ) (h : (mn : ℚ) ≤ q) : mn ≤ pyRound q := by
  have hf : mn ≤ ⌊q⌋ := Int.le_floor.mpr h
  rcases pyRound_cases q with hc | hc <;> omega

theorem pyRound_le_of_le (q : ℚ) (mx : ℤ) (h : q ≤ (mx : ℚ)) : pyRound q ≤ mx := by
  have hf : ⌊q⌋ ≤ mx := by
    have := Int.floor_le_floor h
    simpa using this
  rcases eq_or_lt_of_le hf with heq | hlt
  · have hr : q - (⌊q⌋ : ℚ) < 1 / 2 := by
      have : q - (⌊q⌋ : ℚ) ≤ 0 := by
        rw [heq]
        linarith
      linarith
    unfold pyRound
    dsimp only
    simp only [hr, if_pos]
    omega
  · rcases pyRound_cases q with hc | hc <;> omega

theorem abs_pyRound_sub_le (q : ℚ) : |(pyRound q : ℚ) - q| ≤ 1 / 2 := by
  have h0 : (⌊q⌋ : ℚ) ≤ q := Int.floor_le q
  have h1 : q < (⌊q⌋ : ℚ) + 1 := Int.lt_floor_add_one q
  unfold pyRound
  dsimp only
  split
  next hr =>
    rw [abs_le]
    constructor <;> linarith
  next hr =>
    push_neg at hr
    split
    next hr2 =>
      rw [abs_le]
      push_cast
      constructor <;> linarith
    next hr2 =>
      push_neg at hr2
      split <;> (rw [abs_le]; push_cast; constructor <;> linarith)

theorem pyRound_even_of_tie (q : ℚ) (h : |(pyRound q : ℚ) - q| = 1 / 2) :
    pyRound q % 2 = 0 := by
  have h0 : (⌊q⌋ : ℚ) ≤ q := Int.floor_le q
  have h1 : q < (⌊q⌋ : ℚ) + 1 := Int.lt_floor_add_one q
  by_cases htie : q - (⌊q⌋ : ℚ) = 1 / 2
  · unfold pyRound
    dsimp only
    have hn1 : ¬ (q - (⌊q⌋ : ℚ) < 1 / 2) := by rw [htie]; exact lt_irrefl _
    have hn2 : ¬ ((1 : ℚ) / 2 < q - (⌊q⌋ : ℚ)) := by rw [htie]; exact lt_irrefl _
    simp only [hn1, hn2, if_false]
    split
    · assumption
    · omega
  · exfalso
    rcases pyRound_cases q with hc | hc <;> rw [hc] at h
    · rw [abs_sub_comm, abs_of_nonneg (by linarith)] at h
      exact htie h
    · rw [abs_of_nonneg (by push_cast; linarith)] at h
      apply htie
      push_cast at h
      linarith

/-- On an exact integer, Python `round` is the identity. -/
theorem pyRound_intCast (n : ℤ) : pyRound (n : ℚ) = n := by
  unfold pyRound
  dsimp only
  norm_num


/-! ### Claim C1: the quantile worked examples -/

/-- C1 counterexample: at the concrete input `[10, 20, 30, 40]` with
`p = 1/4` the interpolated value is `17.5` and Python `round` resolves
the tie to the even integer `18`, so the quantile is `18`, not the
`17` the claim states. -/
theorem c1_quantile_counterexample :
    quantile [10, 20, 30, 40] (1 / 4) = some 18 ∧
      quantile [10, 20, 30, 40] (1 / 4) ≠ some 17 :=
  ⟨by decide, by decide⟩

/-- C1 (amended): `quantile [10] p = 10` for every `p` in `[0, 1]`,
`quantile [10, 20] 0.5 = 15`, and `quantile [10, 20, 30, 40] 0.25 =
18`: the interpolated value at fractional rank `(n-1)*p` is rounded to
the nearest integer with exact-half ties to even, so the tie `17.5`
rounds to `18`. -/
theorem c1_quantile_examples :
    (∀ p : ℚ, 0 ≤ p → p ≤ 1 → quantile [10] p = some 10) ∧
      quantile [10, 20] (1 / 2) = some 15 ∧
      quantile [10, 20, 30, 40] (1 / 4) = some 18 :=
  ⟨fun _ _ _ => rfl, by decide, by decide⟩

/-- C1 witness: the amended theorem applied at `p = 1/3`. -/
theorem c1_quantile_examples_witness :
    quantile [10] (1 / 3) = some 10 ∧
      quantile [10, 20] (1 / 2) = some 15 ∧
      quantile [10, 20, 30, 40] (1 / 4) = some 18 :=
  ⟨c1_quantile_examples.1 (1 / 3) (by decide) (by decide),
    c1_quantile_examples.2⟩

/-! ### Claim C2: the rounding convention of `mean_int` -/

/-- C2 counterexample: the exact mean of `[2, 3]` is `2.5`, and the
code returns `2`, not the `3` the claimed round-half-up convention
would give. -/
theorem c2_mean_counterexample :
    mean_int [2, 3] = some 2 ∧ mean_int [2, 3] ≠ some 3 :=
  ⟨by decide, by decide⟩

/-- C2 (amended): for every non-empty list of integers `mean_int`
returns the arithmetic mean rounded to the nearest integer with
exact-half ties resolved to the even integer (so a mean of `2.5`
rounds to `2`), and returns `None` for empty input. -/
theorem c2_mean_rounds_half_to_even :
    mean_int [] = none ∧
      mean_int [2, 3] = some 2 ∧
      ∀ values : List ℤ, values ≠ [] →
        ∃ m : ℤ, mean_int values = some m ∧
          |(m : ℚ) - (values.sum : ℚ) / values.length| ≤ 1 / 2 ∧
          (|(m : ℚ) - (values.sum : ℚ) / values.length| = 1 / 2 → m % 2 = 0) := by
  refine ⟨rfl, by decide, ?_⟩
  intro values hne
  refine ⟨pyRound ((values.sum : ℚ) / values.length), ?_, abs_pyRound_sub_le _, pyRound_even_of_tie _⟩
  simp [mean_int, hne]

/-- C2 witness: the amended theorem applied to `[2, 3]`. -/
theorem c2_mean_rounds_half_to_even_witness :
    ∃ m : ℤ, mean_int [2, 3] = some m ∧
      |(m : ℚ) - (([2, 3] : List ℤ).sum : ℚ) / ([2, 3] : List ℤ).length| ≤ 1 / 2 ∧
      (|(m : ℚ) - (([2, 3] : List ℤ).sum : ℚ) / ([2, 3] : List ℤ).length| = 1 / 2 → m % 2 = 0) :=
  c2_mean_rounds_half_to_even.2.2 [2, 3] (by decide)

/-! ### Claim C10: quantile stays within the min/max bounds -/

theorem getD_mem_of_lt (l : List ℤ) (i : ℕ) (h : i < l.length) : l.getD i 0 ∈ l := by
  rw [List.getD_eq_getElem?_getD, List.getElem?_eq_getElem h]
  exact List.getElem_mem h

theorem int_min?_spec {xs : List ℤ} {mn : ℤ} (h : xs.min? = some mn) :
    mn ∈ xs ∧ ∀ b ∈ xs, mn ≤ b := by
  haveI : Std.Antisymm ((· : ℤ) ≤ ·) := ⟨fun h1 h2 => le_antisymm h1 h2⟩
  exact (List.min?_eq_some_iff (fun a => le_refl a) (fun a b => min_choice a b)
    (fun _ _ _ => le_min_iff)).mp h

theorem int_max?_spec {xs : List ℤ} {mx : ℤ} (h : xs.max? = some mx) :
    mx ∈ xs ∧ ∀ b ∈ xs, b ≤ mx := by
  haveI : Std.Antisymm ((· : ℤ) ≤ ·) := ⟨fun h1 h2 => le_antisymm h1 h2⟩
  exact (List.max?_eq_some_iff (fun a => le_refl a) (fun a b => max_choice a b)
    (fun _ _ _ => max_le_iff)).mp h

theorem quantile_bounds (values : List ℤ) (p : ℚ) (mn mx : ℤ)
    (hmn : values.min? = some mn) (hmx : values.max? = some mx)
    (hp0 : 0 ≤ p) (hp1 : p ≤ 1) :
    ∃ q, quantile values p = some q ∧ mn ≤ q ∧ q ≤ mx := by
  obtain ⟨hmnmem, hmnle⟩ := int_min?_spec hmn
  obtain ⟨hmxmem, hmxle⟩ := int_max?_spec hmx
  have hne : values ≠ [] := by
    rintro rfl
    simp at hmn
  have hmem : ∀ y ∈ pySorted values, mn ≤ y ∧ y ≤ mx := by
    intro y hy
    have hyv : y ∈ values := (List.perm_insertionSort _ values).mem_iff.mp hy
    exact ⟨hmnle y hyv, hmxle y hyv⟩
  have hlen0 : pySorted values ≠ [] := by
    intro h
    exact hne (((List.perm_insertionSort (· ≤ ·) values).symm.trans (h ▸ List.Perm.refl _)).eq_nil)
  unfold quantile
  rw [if_neg hne]
  by_cases h1 : (pySorted values).length = 1
  · rw [if_pos h1]
    exact ⟨_, rfl, (hmem _ (getD_mem_of_lt _ 0 (by omega))).1,
      (hmem _ (getD_mem_of_lt _ 0 (by omega))).2⟩
  · rw [if_neg h1]
    dsimp only
    have hlen : 2 ≤ (pySorted values).length := by
      have h0 : (pySorted values).length ≠ 0 := fun hz => hlen0 (List.length_eq_zero.mp hz)
      omega
    set n := (pySorted values).length with hn
    set i : ℚ := (((n : ℤ) - 1 : ℤ) : ℚ) * p with hi
    have h2q : (2 : ℚ) ≤ (n : ℚ) := by exact_mod_cast hlen
    have hinn : 0 ≤ i := by
      apply mul_nonneg _ hp0
      push_cast
      linarith
    have hfl0 : (0 : ℤ) ≤ ⌊i⌋ := Int.floor_nonneg.mpr hinn
    set lo : ℕ := ⌊i⌋.toNat with hlo
    have hloZ : (lo : ℤ) = ⌊i⌋ := Int.toNat_of_nonneg hfl0
    have hloQ : ((lo : ℕ) : ℚ) = (⌊i⌋ : ℚ) := by exact_mod_cast hloZ
    have hile : i ≤ (n : ℚ) - 1 := by
      have : i ≤ (((n : ℤ) - 1 : ℤ) : ℚ) * 1 := by
        apply mul_le_mul_of_nonneg_left hp1
        push_cast
        linarith
      push_cast at this ⊢
      linarith
    have hfloorle : ⌊i⌋ ≤ (n : ℤ) - 1 := by
      have := Int.floor_le_floor hile
      rwa [show ((n : ℚ) - 1) = (((n : ℤ) - 1 : ℤ) : ℚ) by push_cast; ring, Int.floor_intCast] at this
    have hlolt : lo < n := by omega
    have hhilt : min (lo + 1) (n - 1) < n := by omega
    have hw0 : 0 ≤ i - (lo : ℚ) := by
      rw [hloQ]
      linarith [Int.floor_le i]
    have hw1 : i - (lo : ℚ) ≤ 1 := by
      rw [hloQ]
      linarith [Int.lt_floor_add_one i]
    obtain ⟨ha1, ha2⟩ := hmem _ (getD_mem_of_lt _ lo hlolt)
    obtain ⟨hb1, hb2⟩ := hmem _ (getD_mem_of_lt _ (min (lo + 1) (n - 1)) hhilt)
    set a : ℤ := (pySorted values).getD lo 0 with ha
    set b : ℤ := (pySorted values).getD (min (lo + 1) (n - 1)) 0 with hb
    set w : ℚ := i - (lo : ℚ) with hw
    refine ⟨pyRound ((a : ℚ) * (1 - w) + (b : ℚ) * w), rfl, ?_, ?_⟩
    · apply le_pyRound_of_le
      have t1 : (0 : ℚ) ≤ ((a : ℚ) - (mn : ℚ)) * (1 - w) :=
        mul_nonneg (by exact_mod_cast sub_nonneg.mpr ha1) (by linarith)
      have t2 : (0 : ℚ) ≤ ((b : ℚ) - (mn : ℚ)) * w :=
        mul_nonneg (by exact_mod_cast sub_nonneg.mpr hb1) hw0
      nlinarith [t1, t2]
    · apply pyRound_le_of_le
      have t1 : (0 : ℚ) ≤ ((mx : ℚ) - (a : ℚ)) * (1 - w) :=
        mul_nonneg (by exact_mod_cast sub_nonneg.mpr ha2) (by linarith)
      have t2 : (0 : ℚ) ≤ ((mx : ℚ) - (b : ℚ)) * w :=
        mul_nonneg (by exact_mod_cast sub_nonneg.mpr hb2) hw0
      nlinarith [t1, t2]

/-- C10: for every non-empty list of integers and every `p` in
`[0, 1]`, `quantile` returns a value between the minimum and the
maximum of the list; consequently, in every entry of the per-day
statistics map, `p25` and `p75` lie within `[min, max]` of the prices of that
day. -/
theorem c10_quantile_within_min_max :
    (∀ (values : List ℤ) (p : ℚ) (mn mx : ℤ),
        values.min? = some mn → values.max? = some mx → 0 ≤ p → p ≤ 1 →
        ∃ q, quantile values p = some q ∧ mn ≤ q ∧ q ≤ mx) ∧
      ∀ (rows : List DetailRow) (d : ℕ) (st : DayStats),
        build_detail_stats_by_day rows d = some st →
        ∃ q25 q75 mn mx, st.p25 = some q25 ∧ st.p75 = some q75 ∧
          st.min = some mn ∧ st.max = some mx ∧
          mn ≤ q25 ∧ q25 ≤ mx ∧ mn ≤ q75 ∧ q75 ≤ mx := by
  refine ⟨quantile_bounds, ?_⟩
  intro rows d st h
  unfold build_detail_stats_by_day at h
  by_cases hemp : (pricesOn rows d).isEmpty
  · rw [if_pos hemp] at h
    exact absurd h (by simp)
  · rw [if_neg hemp] at h
    have hne : pricesOn rows d ≠ [] := by
      intro hz
      rw [hz] at hemp
      exact hemp rfl
    obtain ⟨mn, hmn⟩ : ∃ mn, (pricesOn rows d).min? = some mn := by
      cases hm : (pricesOn rows d).min? with
      | none => exact absurd (List.min?_eq_none_iff.mp hm) hne
      | some mn => exact ⟨mn, rfl⟩
    obtain ⟨mx, hmx⟩ : ∃ mx, (pricesOn rows d).max? = some mx := by
      cases hm : (pricesOn rows d).max? with
      | none => exact absurd (List.max?_eq_none_iff.mp hm) hne
      | some mx => exact ⟨mx, rfl⟩
    obtain ⟨q25, hq25, h25a, h25b⟩ :=
      quantile_bounds (pricesOn rows d) (1 / 4) mn mx hmn hmx (by norm_num) (by norm_num)
    obtain ⟨q75, hq75, h75a, h75b⟩ :=
      quantile_bounds (pricesOn rows d) (3 / 4) mn mx hmn hmx (by norm_num) (by norm_num)
    obtain rfl : _ = st := Option.some.inj h
    exact ⟨q25, q75, mn, mx, hq25, hq75, hmn, hmx, h25a, h25b, h75a, h75b⟩

/-- C10 witness: the first part of the theorem applied to
`[9000, 11000]` and `p = 1/4`. -/
theorem c10_quantile_within_min_max_witness :
    ∃ q, quantile [9000, 11000] (1 / 4) = some q ∧ 9000 ≤ q ∧ q ≤ 11000 :=
  c10_quantile_within_min_max.1 [9000, 11000] (1 / 4) 9000 11000 (by decide) (by decide)
    (by decide) (by decide)

/-! ### Claim C8: the per-day statistics postcondition -/

/-- C8: the statistics map has an entry exactly for the dates owning
at least one detail row; each entry holds the median, p25,
p75, min and max over its prices; and for a date with exactly the two
prices 9000 and 11000 the entry is median 10000, p25 9500, p75 10500,
min 9000, max 11000. -/
theorem c8_detail_stats_by_day :
    (∀ (rows : List DetailRow) (d : ℕ),
        (build_detail_stats_by_day rows d).isSome ↔ ∃ r ∈ rows, r.checkin = d) ∧
      (∀ (rows : List DetailRow) (d : ℕ) (st : DayStats),
        build_detail_stats_by_day rows d = some st →
        st.median = median_int (pricesOn rows d) ∧
          st.p25 = quantile (pricesOn rows d) (1 / 4) ∧
          st.p75 = quantile (pricesOn rows d) (3 / 4) ∧
          st.min = (pricesOn rows d).min? ∧
          st.max = (pricesOn rows d).max?) ∧
      build_detail_stats_by_day c8ExampleRows (toOrdinal 2026 1 23) =
        some ⟨some 10000, some 9500, some 10500, some 9000, some 11000⟩ := by
  refine ⟨?_, ?_, by decide⟩
  · intro rows d
    have hiff : (build_detail_stats_by_day rows d).isSome ↔ ¬(pricesOn rows d).isEmpty := by
      unfold build_detail_stats_by_day
      by_cases hemp : (pricesOn rows d).isEmpty <;> simp [hemp]
    rw [hiff, List.isEmpty_iff]
    unfold pricesOn
    constructor
    · intro hne
      by_contra hnone
      push_neg at hnone
      apply hne
      rw [List.map_eq_nil_iff, List.filter_eq_nil_iff]
      intro r hr
      simpa using hnone r hr
    · rintro ⟨r, hr, hd⟩ hnil
      rw [List.map_eq_nil_iff, List.filter_eq_nil_iff] at hnil
      exact hnil r hr (by simpa using hd)
  · intro rows d st h
    unfold build_detail_stats_by_day at h
    by_cases hemp : (pricesOn rows d).isEmpty
    · rw [if_pos hemp] at h
      exact absurd h (by simp)
    · rw [if_neg hemp] at h
      obtain rfl : _ = st := Option.some.inj h
      exact ⟨rfl, rfl, rfl, rfl, rfl⟩

/-- C8 witness: the second part of the theorem applied to the worked
example. -/
theorem c8_detail_stats_by_day_witness :
    (some 10000 : Option ℤ) = median_int (pricesOn c8ExampleRows (toOrdinal 2026 1 23)) ∧
      (some 9500 : Option ℤ) = quantile (pricesOn c8ExampleRows (toOrdinal 2026 1 23)) (1 / 4) ∧
      (some 10500 : Option ℤ) = quantile (pricesOn c8ExampleRows (toOrdinal 2026 1 23)) (3 / 4) ∧
      (some 9000 : Option ℤ) = (pricesOn c8ExampleRows (toOrdinal 2026 1 23)).min? ∧
      (some 11000 : Option ℤ) = (pricesOn c8ExampleRows (toOrdinal 2026 1 23)).max? :=
  c8_detail_stats_by_day.2.1 c8ExampleRows (toOrdinal 2026 1 23)
    ⟨some 10000, some 9500, some 10500, some 9000, some 11000⟩ (by decide)

/-! ### Claim C3: tolerant numeric-cell parsing -/

theorem parse_avg_row_error_iff (r : Row) :
    parse_avg_row r = Except.error () ↔
      (parse_date (rowGet r "checkin" (some ""))).isSome ∧ parseCount r = Except.error () := by
  unfold parse_avg_row
  cases hd : parse_date (rowGet r "checkin" (some "")) with
  | none => simp
  | some d =>
    cases hc : parseCount r with
    | error e => cases e; simp
    | ok c => simp

theorem processAvg_error_iff (rows : List Row) :
    processAvg rows = Except.error () ↔ ∃ r ∈ rows, parse_avg_row r = Except.error () := by
  induction rows with
  | nil => simp [processAvg]
  | cons r rest ih =>
    unfold processAvg
    cases hr : parse_avg_row r with
    | error e => cases e; simp [hr]
    | ok o =>
      cases o with
      | none =>
        rw [ih]
        constructor
        · rintro ⟨x, hx, he⟩
          exact ⟨x, List.mem_cons_of_mem _ hx, he⟩
        · rintro ⟨x, hx, he⟩
          rcases List.mem_cons.mp hx with rfl | hx
          · rw [hr] at he
            exact absurd he (by simp)
          · exact ⟨x, hx, he⟩
      | some a =>
        cases hrest : processAvg rest with
        | error e =>
          cases e
          simp only [Except.map, hrest]
          rw [hrest] at ih
          constructor
          · intro _
            obtain ⟨x, hx, he⟩ := ih.mp rfl
            exact ⟨x, List.mem_cons_of_mem _ hx, he⟩
          · intro _
            trivial
        | ok l =>
          simp only [Except.map, hrest]
          rw [hrest] at ih
          constructor
          · intro he
            exact absurd he (by simp)
          · rintro ⟨x, hx, he⟩
            rcases List.mem_cons.mp hx with rfl | hx
            · rw [hr] at he
              exact absurd he (by simp)
            · exact absurd (ih.mpr ⟨x, hx, he⟩) (by simp)

/-- C3 counterexample: a single summary row with a valid `checkin` and
the malformed `count` cell `"abc"` makes batch parsing raise
(`int("abc")` raises `ValueError`), contradicting the claim that no
malformed cell can halt parsing. -/
theorem c3_count_cell_raises_counterexample :
    read_avg_csv [[("checkin", some "2026-01-23"), ("count", some "abc")]] =
      Except.error () := by decide

/-- C3 (amended): the tolerant parsers `_parse_int` and `_parse_float`
never raise — empty text, the case-insensitive token `none`, and
unparseable text all yield `None`, and `read_details_csv` is total —
and a missing or empty `count` cell defaults to `0`; but the `count`
column of a summary row is parsed with bare `int(...)`, so batch
parsing of the summary table raises exactly when some row has a valid
`checkin` and a malformed non-empty `count` cell. -/
theorem c3_numeric_cells_tolerant_except_count :
    parse_int (some "") = none ∧
      parse_int (some " NoNe ") = none ∧
      parse_int (some "abc") = none ∧
      parse_int (some "12.5") = none ∧
      parse_int (some " 42 ") = some 42 ∧
      parse_int none = none ∧
      parse_float (some "") = none ∧
      parse_float (some "None") = none ∧
      parse_float (some "x1") = none ∧
      parse_float (some "4.8") = some (24 / 5) ∧
      parseCount [] = Except.ok 0 ∧
      parseCount [("count", some "")] = Except.ok 0 ∧
      parseCount [("count", none)] = Except.ok 0 ∧
      ∀ rows : List Row,
        read_avg_csv rows = Except.error () ↔
          ∃ r ∈ rows, (parse_date (rowGet r "checkin" (some ""))).isSome ∧
            parseCount r = Except.error () := by
  refine ⟨by decide, by decide, by decide, by decide, by decide, by decide, by decide,
    by decide, by decide, by decide, by decide, by decide, by decide, ?_⟩
  intro rows
  have hmap : read_avg_csv rows = Except.error () ↔ processAvg rows = Except.error () := by
    unfold read_avg_csv
    cases hp : processAvg rows with
    | error e => cases e; simp [Except.map]
    | ok l => simp [Except.map]
  rw [hmap, processAvg_error_iff]
  constructor
  · rintro ⟨r, hr, he⟩
    exact ⟨r, hr, (parse_avg_row_error_iff r).mp he⟩
  · rintro ⟨r, hr, he⟩
    exact ⟨r, hr, (parse_avg_row_error_iff r).mpr he⟩

/-! ### Claim C5: row dropping and retention -/

theorem processAvg_skips_bad_row (pre post : List Row) (bad : Row)
    (hbad : parse_avg_row bad = Except.ok none) :
    processAvg (pre ++ bad :: post) = processAvg (pre ++ post) := by
  induction pre with
  | nil => simp [processAvg, hbad]
  | cons r rest ih =>
    simp only [List.cons_append]
    unfold processAvg
    cases hr : parse_avg_row r with
    | error e => rfl
    | ok o => cases o <;> simp [ih]

/-- C5: a summary row whose `checkin` does not parse is excluded from
the parsed output; a detail row whose `checkin` or `price_yen` does
not parse is excluded; and a detail row that parses with
`price_yen = 0` is retained in the parsed output. -/
theorem c5_row_dropping :
    (∀ (pre post : List Row) (bad : Row),
        parse_date (rowGet bad "checkin" (some "")) = none →
        read_avg_csv (pre ++ bad :: post) = read_avg_csv (pre ++ post)) ∧
      (∀ (pre post : List Row) (bad : Row),
        parse_date (rowGet bad "checkin" (some "")) = none ∨
          parse_int (rowGet bad "price_yen" (some "")) = none →
        read_details_csv (pre ++ bad :: post) = read_details_csv (pre ++ post)) ∧
      ∀ (rows : List Row) (row : Row) (dr : DetailRow),
        row ∈ rows → rowToDetail? row = some dr → dr.price_yen = 0 →
        dr ∈ read_details_csv rows := by
  refine ⟨?_, ?_, ?_⟩
  · intro pre post bad hbad
    have hrow : parse_avg_row bad = Except.ok none := by
      unfold parse_avg_row
      rw [hbad]
    unfold read_avg_csv
    rw [processAvg_skips_bad_row pre post bad hrow]
  · intro pre post bad hbad
    have hnone : rowToDetail? bad = none := by
      unfold rowToDetail?
      rcases hbad with h | h
      · rw [h]
      · rw [h]
        cases parse_date (rowGet bad "checkin" (some "")) <;> rfl
    unfold read_details_csv
    rw [List.filterMap_append, List.filterMap_cons, hnone, List.filterMap_append]
  · intro rows row dr hrow hparse _
    have : dr ∈ rows.filterMap rowToDetail? := List.mem_filterMap.mpr ⟨row, hrow, hparse⟩
    unfold read_details_csv
    exact (List.mem_insertionSort _).mpr this

/-- C5 witness: the theorem applied to concrete rows — a summary row
with empty `checkin` is dropped, a detail row without `price_yen` is
dropped, and a detail row with price `0` is kept. -/
theorem c5_row_dropping_witness :
    read_avg_csv [[("checkin", some "")]] = read_avg_csv [] ∧
      read_details_csv [[("checkin", some "2026-01-23")]] = read_details_csv [] ∧
      ({ checkin := toOrdinal 2026 1 23, price_yen := 0 } : DetailRow) ∈
        read_details_csv [[("checkin", some "2026-01-23"), ("price_yen", some "0")]] :=
  ⟨c5_row_dropping.1 [] [] [("checkin", some "")] (by decide),
    c5_row_dropping.2.1 [] [] [("checkin", some "2026-01-23")] (Or.inr (by decide)),
    c5_row_dropping.2.2 [[("checkin", some "2026-01-23"), ("price_yen", some "0")]]
      [("checkin", some "2026-01-23"), ("price_yen", some "0")]
      { checkin := toOrdinal 2026 1 23, price_yen := 0 }
      (by decide) (by decide) (by decide)⟩

/-! ### Claim C4: HTML escaping of free text -/

theorem self_not_mem_replace1 {c : Char} {rep s : List Char} (hrep : c ∉ rep) :
    c ∉ replace1 c rep s := by
  intro h
  obtain ⟨y, hy, hx⟩ := List.mem_flatMap.mp h
  by_cases hyc : y = c
  · rw [if_pos hyc] at hx
    exact hrep hx
  · rw [if_neg hyc] at hx
    exact hyc (List.mem_singleton.mp hx).symm

theorem not_mem_replace1_of_not_mem {x c : Char} {rep s : List Char}
    (hrep : x ∉ rep) (hs : x ∉ s) : x ∉ replace1 c rep s := by
  intro h
  obtain ⟨y, hy, hx⟩ := List.mem_flatMap.mp h
  by_cases hyc : y = c
  · rw [if_pos hyc] at hx
    exact hrep hx
  · rw [if_neg hyc] at hx
    exact hs ((List.mem_singleton.mp hx) ▸ hy)

theorem replaceLtSlash_cons_head (a : Char) (l : List Char) :
    ∃ tl, replaceLtSlash (a :: l) = a :: tl := by
  cases l with
  | nil => exact ⟨[], rfl⟩
  | cons b rest =>
    by_cases h : a = '<' ∧ b = '/'
    · refine ⟨'\\' :: '/' :: replaceLtSlash rest, ?_⟩
      rw [replaceLtSlash, if_pos h, h.1]
    · exact ⟨replaceLtSlash (b :: rest), by rw [replaceLtSlash, if_neg h]⟩

/-- The `</` rewriting leaves no `</` occurrence behind. -/
theorem hasLtSlash_replaceLtSlash (l : List Char) :
    hasLtSlash (replaceLtSlash l) = false := by
  have H : ∀ n l, List.length l ≤ n → hasLtSlash (replaceLtSlash l) = false := by
    intro n
    induction n with
    | zero =>
      intro l hl
      rw [Nat.le_zero, List.length_eq_zero] at hl
      subst hl
      rfl
    | succ n ih =>
      intro l hl
      match l with
      | [] => rfl
      | [a] => rfl
      | a :: b :: rest =>
        rw [replaceLtSlash]
        by_cases h : a = '<' ∧ b = '/'
        · rw [if_pos h]
          have hrest : hasLtSlash (replaceLtSlash rest) = false := by
            apply ih
            simp at hl
            omega
          cases hR : replaceLtSlash rest with
          | nil => rfl
          | cons r R =>
            rw [hasLtSlash, hasLtSlash, hasLtSlash]
            rw [hR] at hrest
            simp [hrest]
        · rw [if_neg h]
          have hrest : hasLtSlash (replaceLtSlash (b :: rest)) = false := by
            apply ih
            simp at hl ⊢
            omega
          obtain ⟨tl, htl⟩ := replaceLtSlash_cons_head b rest
          rw [htl] at hrest ⊢
          rw [hasLtSlash, hrest]
          have hab : (a = '<' && b = '/') = false := by
            by_cases ha : a = '<'
            · have hb : b ≠ '/' := fun hb => h ⟨ha, hb⟩
              simp [ha, hb]
            · simp [ha]
          simpa using hab
  exact H l.length l (le_refl _)

/-- C4 counterexample: in the emitted document a detail-row title
reaches the JSON payload `<script>` element JSON-encoded with only
`</` rewritten to `<\\/`, so the title
`<script>alert(1)</script>` occurs in the artifact with literal `<`
and `>` characters — not HTML-escaped to entities — and differs from
its `escape` form. -/
theorem c4_payload_not_entity_escaped_counterexample :
    embeddedPayloadTitle ("<script>alert(1)</script>".data) =
        ("\"<script>alert(1)<\\/script>\"".data) ∧
      '<' ∈ embeddedPayloadTitle ("<script>alert(1)</script>".data) ∧
      embeddedPayloadTitle ("<script>alert(1)</script>".data) ≠
        escape ("<script>alert(1)</script>".data) :=
  ⟨by decide, by decide, by decide⟩

/-- C4 (amended): free text interpolated into HTML markup through
`escape` has `&`, `<`, `>`, `"` and the single quote replaced by
entities, so none of `<`, `>`, `"`, `\x27` survives in escaped text
(shown on the `<script>alert(1)</script>` example); titles embedded in
the JSON payload are instead JSON-string-encoded with every `</`
rewritten to `<\\/`, so the payload never contains the
script-closing sequence `</` — the title can never appear as live
markup — but its `<` and `>` are not replaced by entities there. -/
theorem c4_escaping_and_payload :
    (∀ s : List Char,
        '<' ∉ escape s ∧ '>' ∉ escape s ∧ '"' ∉ escape s ∧ Char.ofNat 39 ∉ escape s) ∧
      escape ("<script>alert(1)</script>".data) =
        ("&lt;script&gt;alert(1)&lt;/script&gt;".data) ∧
      (∀ title : List Char, hasLtSlash (embeddedPayloadTitle title) = false) ∧
      embeddedPayloadTitle ("<script>alert(1)</script>".data) =
        ("\"<script>alert(1)<\\/script>\"".data) := by
  refine ⟨?_, by decide, ?_, by decide⟩
  · intro s
    unfold escape
    refine ⟨?_, ?_, ?_, ?_⟩
    · exact not_mem_replace1_of_not_mem (by decide)
        (not_mem_replace1_of_not_mem (by decide)
          (not_mem_replace1_of_not_mem (by decide)
            (self_not_mem_replace1 (by decide))))
    · exact not_mem_replace1_of_not_mem (by decide)
        (not_mem_replace1_of_not_mem (by decide)
          (self_not_mem_replace1 (by decide)))
    · exact not_mem_replace1_of_not_mem (by decide)
        (self_not_mem_replace1 (by decide))
    · exact self_not_mem_replace1 (by decide)
  · intro title
    exact hasLtSlash_replaceLtSlash _

/-! ### Claim C9: chart polyline gap handling -/

theorem modifyHead_nil_append (l : List (List (ℕ × ℤ))) :
    l.modifyHead (fun r => [] ++ r) = l := by
  cases l <;> simp

theorem map_cleanRun_modifyHead_cons (i : ℕ) (v : ℤ) (l : List (List (ℕ × Option ℤ))) :
    (l.modifyHead (List.cons (i, some v))).map cleanRun =
      (l.map cleanRun).modifyHead (fun r => (i, v) :: r) := by
  cases l <;> simp [cleanRun]

theorem modifyHead_modifyHead (f g : List (ℕ × ℤ) → List (ℕ × ℤ))
    (l : List (List (ℕ × ℤ))) :
    (l.modifyHead g).modifyHead f = l.modifyHead (fun r => f (g r)) := by
  cases l <;> simp

theorem polySegsAux_eq (series : List (Option ℤ)) :
    ∀ (i : ℕ) (cur : List (ℕ × ℤ)),
      polySegsAux series i cur =
        ((((series.enumFrom i).splitOnP (fun p => p.2.isNone)).map cleanRun).modifyHead
            (fun run => cur ++ run)).filter (fun run => decide (2 ≤ run.length)) := by
  induction series with
  | nil =>
    intro i cur
    rw [polySegsAux]
    by_cases h : 2 ≤ cur.length <;>
      simp [List.enumFrom, List.splitOnP_nil, cleanRun, h]
  | cons o rest ih =>
    intro i cur
    cases o with
    | none =>
      rw [polySegsAux]
      have henum : (none :: rest : List (Option ℤ)).enumFrom i =
          (i, (none : Option ℤ)) :: rest.enumFrom (i + 1) := rfl
      rw [henum, List.splitOnP_cons]
      simp only [Option.isNone_none, if_pos]
      rw [List.map_cons, List.modifyHead_cons, List.filter_cons]
      have hclean : cleanRun [] = [] := rfl
      rw [ih (i + 1) []]
      rw [modifyHead_nil_append]
      by_cases h : 2 ≤ cur.length
      · simp [hclean, h]
      · simp [hclean, h]
    | some v =>
      rw [polySegsAux]
      have henum : (some v :: rest : List (Option ℤ)).enumFrom i =
          (i, some v) :: rest.enumFrom (i + 1) := rfl
      rw [henum, List.splitOnP_cons]
      simp only [Option.isNone_some, if_neg, Bool.false_eq_true, not_false_iff]
      rw [map_cleanRun_modifyHead_cons, modifyHead_modifyHead]
      rw [ih (i + 1) (cur ++ [(i, v)])]
      have harg : (fun run => cur ++ [(i, v)] ++ run) = (fun r => cur ++ (i, v) :: r) := by
        funext r
        simp
      rw [harg]

/-- C9: the emitted polyline segments are exactly the maximal runs of
consecutive dates with a present series value, restricted to runs of
length at least two: a missing value terminates the current segment
and single points produce no polyline. -/
theorem c9_polyline_segments_are_maximal_runs (series : List (Option ℤ)) :
    polyline_segments series = spec_segments series := by
  unfold polyline_segments spec_segments
  rw [show series.enum = series.enumFrom 0 from rfl]
  rw [polySegsAux_eq series 0 []]
  rw [modifyHead_nil_append]

/-! ### Claim C7: the citizens-holiday rule -/

theorem mem_yearDates_iff (year x : ℕ) :
    x ∈ yearDates year ↔ toOrdinal year 1 1 ≤ x ∧ x ≤ toOrdinal year 12 31 := by
  have hse : toOrdinal year 1 1 ≤ toOrdinal year 12 31 := by
    have h1 : daysBeforeMonth year 1 = 0 := rfl
    unfold toOrdinal
    rw [h1]
    omega
  unfold yearDates
  rw [List.mem_map]
  constructor
  · rintro ⟨k, hk, rfl⟩
    rw [List.mem_range] at hk
    omega
  · rintro ⟨h1, h2⟩
    exact ⟨x - toOrdinal year 1 1, List.mem_range.mpr (by omega), by omega⟩

/-- C7: a date of the year is in the computed holiday set exactly when
it is already a holiday after the substitution step, or it lies within
the year, is not such a holiday, is not a Sunday, and both its
neighbouring dates are holidays of the substitution step — the
citizens-holiday rule adds exactly the sandwiched non-Sunday dates and
nothing else. -/
theorem c7_citizens_holiday (year d : ℕ) :
    d ∈ japan_holidays_for_year year ↔
      d ∈ holsAfterSub year ∨
        (toOrdinal year 1 1 ≤ d ∧ d ≤ toOrdinal year 12 31 ∧ d ∉ holsAfterSub year ∧
          weekday d ≠ 6 ∧ (d - 1) ∈ holsAfterSub year ∧ (d + 1) ∈ holsAfterSub year) := by
  unfold japan_holidays_for_year citizenHolidays
  rw [List.mem_append, List.mem_filter, mem_yearDates_iff, decide_eq_true_eq]
  constructor
  · rintro (h | ⟨⟨h1, h2⟩, h3, h4, h5, h6⟩)
    · exact Or.inl h
    · exact Or.inr ⟨h1, h2, h3, h4, h5, h6⟩
  · rintro (h | ⟨h1, h2, h3, h4, h5, h6⟩)
    · exact Or.inl h
    · exact Or.inr ⟨⟨h1, h2⟩, h3, h4, h5, h6⟩

/-! ### Claim C6: the substitution-holiday rule -/

theorem findNextFreeAux_spec (bad : List ℕ) :
    ∀ (fuel d : ℕ), (∃ e, d ≤ e ∧ e < d + fuel ∧ e ∉ bad) →
      d ≤ findNextFreeAux bad fuel d ∧ findNextFreeAux bad fuel d ∉ bad ∧
        ∀ e, d ≤ e → e < findNextFreeAux bad fuel d → e ∈ bad := by
  intro fuel
  induction fuel with
  | zero =>
    intro d ⟨e, h1, h2, _⟩
    exact absurd h2 (by omega)
  | succ n ih =>
    intro d hex
    rw [findNextFreeAux]
    by_cases hd : d ∈ bad
    · rw [if_pos hd]
      have hex2 : ∃ e, d + 1 ≤ e ∧ e < d + 1 + n ∧ e ∉ bad := by
        obtain ⟨e, h1, h2, h3⟩ := hex
        refine ⟨e, ?_, by omega, h3⟩
        rcases Nat.eq_or_lt_of_le h1 with rfl | h
        · exact absurd hd h3
        · omega
      obtain ⟨ha, hb, hc⟩ := ih (d + 1) hex2
      refine ⟨by omega, hb, ?_⟩
      intro e he1 he2
      rcases Nat.eq_or_lt_of_le he1 with rfl | h
      · exact hd
      · exact hc e (by omega) he2
    · rw [if_neg hd]
      exact ⟨le_refl _, hd, fun e he1 he2 => absurd he1 (by omega)⟩

theorem exists_free_in_window (bad : List ℕ) (d : ℕ) :
    ∃ e, d ≤ e ∧ e < d + (bad.length + 1) ∧ e ∉ bad := by
  by_contra hcon
  push_neg at hcon
  have hsub : ∀ x ∈ (List.range (bad.length + 1)).map (· + d), x ∈ bad := by
    intro x hx
    obtain ⟨k, hk, rfl⟩ := List.mem_map.mp hx
    rw [List.mem_range] at hk
    exact hcon (k + d) (by omega) (by omega)
  have hnodup : ((List.range (bad.length + 1)).map (· + d)).Nodup :=
    List.Nodup.map (fun a b hab => by omega) (List.nodup_range _)
  have h1 : ((List.range (bad.length + 1)).map (· + d)).toFinset.card = bad.length + 1 := by
    rw [List.toFinset_card_of_nodup hnodup]
    simp
  have h2 : ((List.range (bad.length + 1)).map (· + d)).toFinset ⊆ bad.toFinset := by
    intro x hx
    rw [List.mem_toFinset] at hx ⊢
    exact hsub x hx
  have h3 := Finset.card_le_card h2
  have h4 := bad.toFinset_card_le
  omega

theorem findNextFree_spec (bad : List ℕ) (h : ℕ) :
    h < findNextFree bad h ∧ findNextFree bad h ∉ bad ∧
      ∀ e, h < e → e < findNextFree bad h → e ∈ bad := by
  unfold findNextFree
  obtain ⟨ha, hb, hc⟩ :=
    findNextFreeAux_spec bad (bad.length + 1) (h + 1) (exists_free_in_window bad (h + 1))
  exact ⟨by omega, hb, fun e he1 he2 => hc e (by omega) he2⟩

theorem subsFrom_spec (seeds : List ℕ) :
    ∀ (hs : List ℕ) (added : List ℕ),
      (subsFrom seeds hs added).length =
          (hs.filter (fun h => decide (weekday h = 6))).length ∧
        (∀ s ∈ subsFrom seeds hs added, s ∉ seeds ∧ s ∉ added) ∧
        (subsFrom seeds hs added).Nodup ∧
        ∀ i (hiL : i < (subsFrom seeds hs added).length)
          (hiS : i < (hs.filter (fun h => decide (weekday h = 6))).length),
          (hs.filter (fun h => decide (weekday h = 6))).get ⟨i, hiS⟩ <
              (subsFrom seeds hs added).get ⟨i, hiL⟩ ∧
            (subsFrom seeds hs added).get ⟨i, hiL⟩ ∉ (subsFrom seeds hs added).take i ∧
            ∀ e, (hs.filter (fun h => decide (weekday h = 6))).get ⟨i, hiS⟩ < e →
              e < (subsFrom seeds hs added).get ⟨i, hiL⟩ →
              e ∈ seeds ∨ e ∈ added ∨ e ∈ (subsFrom seeds hs added).take i := by
  intro hs
  induction hs with
  | nil =>
    intro added
    refine ⟨rfl, by simp [subsFrom], by simp [subsFrom], ?_⟩
    intro i hiL
    exact absurd hiL (by simp [subsFrom])
  | cons h rest ih =>
    intro added
    by_cases hsun : weekday h = 6
    · have hsubs : subsFrom seeds (h :: rest) added =
          findNextFree (seeds ++ added) h ::
            subsFrom seeds rest (added ++ [findNextFree (seeds ++ added) h]) := by
        rw [subsFrom, if_pos hsun]
      have hfilter : (h :: rest).filter (fun x => decide (weekday x = 6)) =
          h :: rest.filter (fun x => decide (weekday x = 6)) := by
        simp [List.filter_cons, hsun]
      set s := findNextFree (seeds ++ added) h with hsdef
      obtain ⟨hspec1, hspec2, hspec3⟩ := findNextFree_spec (seeds ++ added) h
      obtain ⟨ihlen, ihmem, ihnd, ihidx⟩ := ih (added ++ [s])
      have hsna : s ∉ seeds ∧ s ∉ added := by
        rw [List.mem_append] at hspec2
        push_neg at hspec2
        exact hspec2
      rw [hsubs, hfilter]
      refine ⟨by simp [ihlen], ?_, ?_, ?_⟩
      · intro x hx
        rcases List.mem_cons.mp hx with rfl | hx
        · exact hsna
        · have hm := ihmem x hx
          refine ⟨hm.1, fun hxa => hm.2 (List.mem_append_left _ hxa)⟩
      · rw [List.nodup_cons]
        refine ⟨fun hsin => ?_, ihnd⟩
        exact (ihmem s hsin).2 (List.mem_append_right _ (List.mem_singleton_self s))
      · intro i hiL hiS
        cases i with
        | zero =>
          refine ⟨hspec1, by simp, ?_⟩
          intro e he1 he2
          have hm := hspec3 e he1 he2
          rw [List.mem_append] at hm
          rcases hm with h1 | h1
          · exact Or.inl h1
          · exact Or.inr (Or.inl h1)
        | succ j =>
          have hiL2 : j < (subsFrom seeds rest (added ++ [s])).length := by
            simpa using hiL
          have hiS2 : j < (rest.filter (fun x => decide (weekday x = 6))).length := by
            simpa using hiS
          obtain ⟨g1, g2, g3⟩ := ihidx j hiL2 hiS2
          refine ⟨?_, ?_, ?_⟩
          · simpa using g1
          · intro hmem2
            rw [List.take_succ_cons] at hmem2
            rcases List.mem_cons.mp (by simpa using hmem2) with heq | hmem3
            · have hin : (subsFrom seeds rest (added ++ [s])).get ⟨j, hiL2⟩ ∈
                  subsFrom seeds rest (added ++ [s]) := List.get_mem _ _ _
              apply (ihmem _ hin).2
              rw [List.get_eq_getElem, heq]
              exact List.mem_append_right _ (List.mem_singleton_self s)
            · exact g2 hmem3
          · intro e he1 he2
            rcases g3 e (by simpa using he1) (by simpa using he2) with h1 | h1 | h1
            · exact Or.inl h1
            · rw [List.mem_append] at h1
              rcases h1 with h2 | h2
              · exact Or.inr (Or.inl h2)
              · rw [List.take_succ_cons]
                exact Or.inr (Or.inr (List.mem_cons.mpr
                    (Or.inl (List.mem_singleton.mp h2))))
            · rw [List.take_succ_cons]
              exact Or.inr (Or.inr (List.mem_cons_of_mem _ h1))
    · have hsubs : subsFrom seeds (h :: rest) added = subsFrom seeds rest added := by
        rw [subsFrom, if_neg hsun]
      have hfilter : (h :: rest).filter (fun x => decide (weekday x = 6)) =
          rest.filter (fun x => decide (weekday x = 6)) := by
        simp [List.filter_cons, hsun]
      rw [hsubs, hfilter]
      exact ih added

/-- C6: every seeded holiday falling on a Sunday contributes exactly
one substitute holiday — the substitute list has one entry per Sunday
seed, its entries are pairwise distinct and disjoint from the seeds,
and the i-th substitute is the first date after the i-th Sunday seed
that is neither a seeded holiday nor an earlier substitute; in
particular consecutive Sunday holidays get independent, distinct
substitutes. -/
theorem c6_substitution_holidays (year : ℕ) :
    (substitutesOfYear year).length = (sundaySeeds year).length ∧
      (substitutesOfYear year).Nodup ∧
      (∀ s ∈ substitutesOfYear year, s ∉ sortedSeeds year) ∧
      ∀ i (hiL : i < (substitutesOfYear year).length)
        (hiS : i < (sundaySeeds year).length),
        (sundaySeeds year).get ⟨i, hiS⟩ < (substitutesOfYear year).get ⟨i, hiL⟩ ∧
          (substitutesOfYear year).get ⟨i, hiL⟩ ∉ (substitutesOfYear year).take i ∧
          ∀ e, (sundaySeeds year).get ⟨i, hiS⟩ < e →
            e < (substitutesOfYear year).get ⟨i, hiL⟩ →
            e ∈ sortedSeeds year ∨ e ∈ (substitutesOfYear year).take i := by
  obtain ⟨hlen, hmem, hnd, hidx⟩ := subsFrom_spec (sortedSeeds year) (sortedSeeds year) []
  refine ⟨hlen, hnd, fun s hsin => (hmem s hsin).1, ?_⟩
  intro i hiL hiS
  obtain ⟨g1, g2, g3⟩ := hidx i hiL hiS
  refine ⟨g1, g2, ?_⟩
  intro e he1 he2
  rcases g3 e he1 he2 with h1 | h1 | h1
  · exact Or.inl h1
  · exact absurd h1 (List.not_mem_nil e)
  · exact Or.inr h1

/-- C6 witness: in 2023 the seed 2023-01-01 falls on a Sunday; the
theorem applied at index 0 places its substitute strictly after it and
outside the earlier substitutes. -/
theorem c6_substitution_holidays_witness :
    (sundaySeeds 2023).get ⟨0, by decide⟩ < (substitutesOfYear 2023).get ⟨0, by decide⟩ ∧
      (substitutesOfYear 2023).get ⟨0, by decide⟩ ∉ (substitutesOfYear 2023).take 0 :=
  ⟨((c6_substitution_holidays 2023).2.2.2 0 (by decide) (by decide)).1,
    ((c6_substitution_holidays 2023).2.2.2 0 (by decide) (by decide)).2.1⟩

end Nonki
